import Mathlib

-- Verification development for the NHTSA crash-test analyzer core
-- (src/analysis/processing.py, src/analysis/pipeline.py, src/analysis/pulse.py).
-- Real numbers are embedded as exact rationals; the scipy Butterworth
-- filter kernel (signal.butter + signal.filtfilt) is kept abstract as a
-- function parameter, since the claims under study are independent of the
-- filter's numerics.

namespace Nhtsa

-- ===== Data model: CrashSignal (src/analysis/core, used by processing.py) =====

/-- Immutable value object produced by `SignalProcessor.process`. -/
structure CrashSignal where
  time_ms : List ℚ
  raw_accel_g : List ℚ
  filtered_accel_g : List ℚ
  velocity_kph : List ℚ
  displacement_m : List ℚ
  sample_rate : ℚ
deriving DecidableEq

-- ===== numpy / scipy primitives used by the source =====

/-- Trapezoid accumulation step of `scipy.integrate.cumulative_trapezoid`:
carries the previous x sample, previous y sample and the running sum. -/
def cumtrapzGo (xp yp acc : ℚ) : List ℚ → List ℚ → List ℚ
  | _, [] => []
  | [], _ => []
  | x1 :: xs, y1 :: ys =>
      let acc2 := acc + (x1 - xp) * (yp + y1) / 2
      acc2 :: cumtrapzGo x1 y1 acc2 xs ys

/-- Embeds `scipy.integrate.cumulative_trapezoid(y, x, initial=0)`:
a leading 0 followed by the running trapezoid sums. -/
def cumtrapz (x y : List ℚ) : List ℚ :=
  match x, y with
  | x0 :: xs, y0 :: ys => 0 :: cumtrapzGo x0 y0 0 xs ys
  | _, _ => []

/-- Embeds `numpy.sign` on an exact rational sample. -/
def npSign (q : ℚ) : Int := if 0 < q then 1 else if q < 0 then -1 else 0

/-- First index at which two adjacent entries differ: the first index of
`numpy.where(numpy.diff(signs))[0]` when that array is nonempty. -/
def firstDiffIdx : List Int → Option Nat
  | a :: b :: rest => if a ≠ b then some 0 else (firstDiffIdx (b :: rest)).map (· + 1)
  | _ => none

/-- Embeds Python `int(q)`: truncation toward zero. -/
def pyInt (q : ℚ) : Int := if 0 ≤ q then ⌊q⌋ else ⌈q⌉

/-- Normalizes a (possibly negative) Python slice start against length `n`. -/
def pyIdx (n : Nat) (i : Int) : Nat := if 0 ≤ i then i.toNat else ((n : Int) + i).toNat

/-- Embeds the Python slice `l[i:]` (negative starts count from the end). -/
def pyDrop (l : List ℚ) (i : Int) : List ℚ := l.drop (pyIdx l.length i)

/-- Overwrites every element from position `k` on with 0. -/
def pyZeroFromNat : List ℚ → Nat → List ℚ
  | [], _ => []
  | _ :: tl, 0 => 0 :: pyZeroFromNat tl 0
  | h :: tl, Nat.succ k => h :: pyZeroFromNat tl k

/-- Embeds the numpy slice assignment `l[i:] = 0`. -/
def pyZeroFrom (l : List ℚ) (i : Int) : List ℚ := pyZeroFromNat l (pyIdx l.length i)

-- ===== SignalProcessor.apply_cfc_filter (processing.py lines 77-100) =====

/-- CFC class to cutoff frequency map of `apply_cfc_filter`. -/
def cfcCutoff (cfc : Int) : ℚ :=
  if cfc = 60 then 100
  else if cfc = 180 then 300
  else if cfc = 600 then 1000
  else if cfc = 1000 then 1650
  else (cfc : ℚ) * (1667 / 1000)

/-- Normalized cutoff handed to `signal.butter`: the cutoff divided by the
Nyquist frequency `0.5 * fs`, replaced by 0.99 when it is `>= 1.0`. -/
def normalCutoff (fs : ℚ) (cfc : Int) : ℚ :=
  let nc := cfcCutoff cfc / (1 / 2 * fs)
  if 1 ≤ nc then 99 / 100 else nc

/-- Embeds `apply_cfc_filter`; `bf` abstracts the scipy kernel
`filtfilt(butter(2, normal_cutoff), data)`, receiving the normalized
cutoff actually passed to the Butterworth design. -/
def applyCfcFilter (bf : ℚ → List ℚ → List ℚ) (data : List ℚ) (fs : ℚ) (cfc : Int) :
    List ℚ :=
  bf (normalCutoff fs cfc) data

-- ===== SignalProcessor.process (processing.py lines 15-75) =====

/-- Sample rate `fs = 1.0 / (time_s[1] - time_s[0])` of `process`. -/
def fsOf (time_s : List ℚ) : ℚ := 1 / (time_s.getD 1 0 - time_s.getD 0 0)

/-- Pre-impact debias stage of `process`: when samples at negative time
exist, their mean is subtracted from the whole filtered trace. -/
def debiasPre (time_s filtered : List ℚ) : List ℚ :=
  if (time_s.filter (fun t => decide (t < 0))).isEmpty then filtered
  else
    let sel := ((time_s.zip filtered).filter (fun p => decide (p.1 < 0))).map (·.2)
    filtered.map (· - sel.sum / (sel.length : ℚ))

/-- Filtered acceleration trace of `process` (filter stage then the
pre-impact debias stage). -/
def filteredOf (bf : ℚ → List ℚ → List ℚ) (time_s raw_g : List ℚ) (cfc : Int) : List ℚ :=
  debiasPre time_s (applyCfcFilter bf raw_g (fsOf time_s) cfc)

/-- Unclipped velocity of `process`: first cumulative trapezoid integral of
the filtered acceleration converted to m/s^2 by standard gravity 9.80665. -/
def rawVelocity (bf : ℚ → List ℚ → List ℚ) (time_s raw_g : List ℚ) (cfc : Int) : List ℚ :=
  cumtrapz time_s ((filteredOf bf time_s raw_g cfc).map (· * (980665 / 100000)))

/-- Embeds `start_search_idx = int(0.02 * fs)`. -/
def startSearchIdx (time_s : List ℚ) : Int := pyInt (1 / 50 * fsOf time_s)

/-- Absolute index from which `process` zeroes the velocity:
`start_search_idx + zero_crossings[0]` when the guarded scan finds a sign
change, none otherwise. -/
def clipStop (bf : ℚ → List ℚ → List ℚ) (time_s raw_g : List ℚ) (cfc : Int) : Option Int :=
  let v := rawVelocity bf time_s raw_g cfc
  let start := startSearchIdx time_s
  if start < (v.length : Int) then
    match firstDiffIdx ((pyDrop v start).map npSign) with
    | some i => some (start + (i : Int))
    | none => none
  else none

/-- Velocity after the drift-correction clipping `velocity_mps[stop_idx:] = 0`. -/
def clippedVelocity (bf : ℚ → List ℚ → List ℚ) (time_s raw_g : List ℚ) (cfc : Int) :
    List ℚ :=
  match clipStop bf time_s raw_g cfc with
  | some s => pyZeroFrom (rawVelocity bf time_s raw_g cfc) s
  | none => rawVelocity bf time_s raw_g cfc

/-- Embeds `SignalProcessor.process` (the `bf` parameter abstracts the scipy
Butterworth kernel). Raises "Data too short" for fewer than 2 samples;
otherwise builds the `CrashSignal` from the filtered, integrated, clipped
and unit-converted traces. -/
def process (bf : ℚ → List ℚ → List ℚ) (time_s raw_g : List ℚ) (cfc : Int) :
    Except String CrashSignal :=
  if time_s.length < 2 then .error "Data too short"
  else
    .ok
      { time_ms := time_s.map (· * 1000)
        raw_accel_g := raw_g
        filtered_accel_g := filteredOf bf time_s raw_g cfc
        velocity_kph := (clippedVelocity bf time_s raw_g cfc).map (· * (18 / 5))
        displacement_m := cumtrapz time_s (clippedVelocity bf time_s raw_g cfc)
        sample_rate := fsOf time_s }

-- ===== C3: CFC cutoff mapping and clamping =====

/-- C3 counterexample: at fs = 201 Hz and CFC 60 the raw normalized cutoff
is 200/201, which is below 1.0 and therefore passed to the Butterworth
design unclamped, yet it exceeds 0.99 — refuting the claim that the
normalized cutoff actually passed is always at most 0.99. -/
theorem c3_clamp_counterexample : ¬ normalCutoff 201 60 ≤ 99 / 100 := by
  norm_num [normalCutoff, cfcCutoff]

/-- C3 (amended): for every sample rate fs > 0 and CFC class,
`apply_cfc_filter` maps CFC 60/180/600/1000 to 100/300/1000/1650 Hz, any
other class to class × 1.667, normalizes by the Nyquist frequency 0.5·fs,
replaces the normalized cutoff by 0.99 exactly when it is ≥ 1.0, and the
value actually passed to the Butterworth design is always < 1.0 (it may
lie strictly between 0.99 and 1.0). -/
theorem c3_cutoff_mapping_amended (fs : ℚ) (cfc : Int) (_hfs : 0 < fs) :
    cfcCutoff 60 = 100 ∧ cfcCutoff 180 = 300 ∧ cfcCutoff 600 = 1000 ∧
    cfcCutoff 1000 = 1650 ∧
    (cfc ≠ 60 → cfc ≠ 180 → cfc ≠ 600 → cfc ≠ 1000 →
      cfcCutoff cfc = (cfc : ℚ) * (1667 / 1000)) ∧
    (1 ≤ cfcCutoff cfc / (1 / 2 * fs) → normalCutoff fs cfc = 99 / 100) ∧
    (cfcCutoff cfc / (1 / 2 * fs) < 1 →
      normalCutoff fs cfc = cfcCutoff cfc / (1 / 2 * fs)) ∧
    normalCutoff fs cfc < 1 := by
  refine ⟨by norm_num [cfcCutoff], by norm_num [cfcCutoff], by norm_num [cfcCutoff],
    by norm_num [cfcCutoff], ?_, ?_, ?_, ?_⟩
  · intro h60 h180 h600 h1000
    simp [cfcCutoff, h60, h180, h600, h1000]
  · intro h
    simp only [normalCutoff]
    rw [if_pos h]
  · intro h
    simp only [normalCutoff]
    rw [if_neg (not_le.mpr h)]
  · by_cases h : 1 ≤ cfcCutoff cfc / (1 / 2 * fs)
    · simp only [normalCutoff]
      rw [if_pos h]
      norm_num
    · simp only [normalCutoff]
      rw [if_neg h]
      exact lt_of_not_le h

/-- C3 witness: at fs = 2000 Hz and CFC 60 the normalized cutoff passed to
the design is 100 / 1000 = 1/10. -/
theorem c3_cutoff_mapping_amended_witness :
    (0 : ℚ) < 2000 ∧ normalCutoff 2000 60 = 1 / 10 := by
  refine ⟨by norm_num, ?_⟩
  have h := c3_cutoff_mapping_amended 2000 60 (by norm_num)
  have hr := h.2.2.2.2.2.2.1 (by norm_num [cfcCutoff])
  rw [hr, h.1]
  norm_num

-- ===== Length lemmas for the process stages =====

lemma cumtrapzGo_length (xs : List ℚ) :
    ∀ (ys : List ℚ) (xp yp acc : ℚ),
      (cumtrapzGo xp yp acc xs ys).length = min xs.length ys.length := by
  induction xs with
  | nil =>
    intro ys xp yp acc
    cases ys <;> simp [cumtrapzGo]
  | cons x1 xs ih =>
    intro ys xp yp acc
    cases ys with
    | nil => simp [cumtrapzGo]
    | cons y1 ys =>
      simp only [cumtrapzGo, List.length_cons, ih]
      omega

lemma cumtrapz_length (x y : List ℚ) (h : x.length = y.length) :
    (cumtrapz x y).length = x.length := by
  cases x with
  | nil =>
    cases y with
    | nil => simp [cumtrapz]
    | cons y0 ys => simp at h
  | cons x0 xs =>
    cases y with
    | nil => simp at h
    | cons y0 ys =>
      simp only [cumtrapz, List.length_cons, cumtrapzGo_length]
      simp only [List.length_cons] at h
      omega

lemma debiasPre_length (t f : List ℚ) : (debiasPre t f).length = f.length := by
  unfold debiasPre
  split <;> simp

lemma pyZeroFromNat_length (l : List ℚ) :
    ∀ k, (pyZeroFromNat l k).length = l.length := by
  induction l with
  | nil => intro k; simp [pyZeroFromNat]
  | cons h tl ih =>
    intro k
    cases k with
    | zero => simp [pyZeroFromNat, ih]
    | succ k => simp [pyZeroFromNat, ih]

lemma filteredOf_length (bf : ℚ → List ℚ → List ℚ) (t a : List ℚ) (cfc : Int)
    (hbf : ∀ c l, (bf c l).length = l.length) :
    (filteredOf bf t a cfc).length = a.length := by
  simp [filteredOf, debiasPre_length, applyCfcFilter, hbf]

lemma rawVelocity_length (bf : ℚ → List ℚ → List ℚ) (t a : List ℚ) (cfc : Int)
    (hbf : ∀ c l, (bf c l).length = l.length) (hlen : t.length = a.length) :
    (rawVelocity bf t a cfc).length = t.length := by
  unfold rawVelocity
  rw [cumtrapz_length]
  simp [filteredOf_length bf t a cfc hbf, hlen]

lemma clippedVelocity_length (bf : ℚ → List ℚ → List ℚ) (t a : List ℚ) (cfc : Int)
    (hbf : ∀ c l, (bf c l).length = l.length) (hlen : t.length = a.length) :
    (clippedVelocity bf t a cfc).length = t.length := by
  unfold clippedVelocity
  cases h : clipStop bf t a cfc with
  | none => exact rawVelocity_length bf t a cfc hbf hlen
  | some s =>
    simp [pyZeroFrom, pyZeroFromNat_length, rawVelocity_length bf t a cfc hbf hlen]

-- ===== C8: CrashSignal invariant (all five sequences share length N) =====

/-- C8: for every input with N ≥ 2 samples and any CFC class, the
`CrashSignal` returned by `SignalProcessor.process` has all five sequences
of length N, and its `sample_rate` equals `1 / (time[1] - time[0])`.
The filter kernel is assumed length-preserving, which holds of
`scipy.signal.filtfilt`. -/
theorem c8_crash_signal_lengths (bf : ℚ → List ℚ → List ℚ) (t a : List ℚ) (cfc : Int)
    (sig : CrashSignal)
    (hbf : ∀ c l, (bf c l).length = l.length)
    (hlen : t.length = a.length) (h2 : 2 ≤ t.length)
    (hrun : process bf t a cfc = .ok sig) :
    sig.time_ms.length = t.length ∧
    sig.raw_accel_g.length = t.length ∧
    sig.filtered_accel_g.length = t.length ∧
    sig.velocity_kph.length = t.length ∧
    sig.displacement_m.length = t.length ∧
    sig.sample_rate = 1 / (t.getD 1 0 - t.getD 0 0) := by
  unfold process at hrun
  rw [if_neg (by omega)] at hrun
  cases hrun
  refine ⟨by simp, hlen.symm, ?_, ?_, ?_, rfl⟩
  · exact (filteredOf_length bf t a cfc hbf).trans hlen.symm
  · simp [clippedVelocity_length bf t a cfc hbf hlen]
  · simp only []
    rw [cumtrapz_length]
    exact (clippedVelocity_length bf t a cfc hbf hlen).symm

/-- Identity stand-in for the abstract Butterworth kernel, used by the
concrete witnesses. -/
def idKernel : ℚ → List ℚ → List ℚ := fun _ l => l

/-- C8 witness: the two-sample flat trace time = [0, 1], accel = [0, 0]
yields a CrashSignal whose five sequences all have length 2 and whose
sample rate is 1. -/
theorem c8_crash_signal_lengths_witness :
    (2 : Nat) ≤ 2 ∧
    ({ time_ms := [0, 1000], raw_accel_g := [0, 0], filtered_accel_g := [0, 0],
       velocity_kph := [0, 0], displacement_m := [0, 0],
       sample_rate := 1 } : CrashSignal).velocity_kph.length = 2 := by
  have hfl : filteredOf idKernel [0, 1] [0, 0] 60 = [0, 0] := by
    norm_num [filteredOf, applyCfcFilter, debiasPre, idKernel]
  have hcs : clipStop idKernel [0, 1] [0, 0] 60 = none := by
    norm_num [clipStop, rawVelocity, filteredOf, applyCfcFilter, debiasPre,
      idKernel, cumtrapz, cumtrapzGo, startSearchIdx, pyInt, fsOf, pyDrop,
      pyIdx, npSign, firstDiffIdx]
  have hcv : clippedVelocity idKernel [0, 1] [0, 0] 60 = [0, 0] := by
    unfold clippedVelocity
    rw [hcs]
    norm_num [rawVelocity, filteredOf, applyCfcFilter, debiasPre, idKernel,
      cumtrapz, cumtrapzGo]
  have hrun : process idKernel [0, 1] [0, 0] 60 =
      .ok { time_ms := [0, 1000], raw_accel_g := [0, 0],
            filtered_accel_g := [0, 0], velocity_kph := [0, 0],
            displacement_m := [0, 0], sample_rate := 1 } := by
    unfold process
    rw [if_neg (by norm_num)]
    norm_num [hcv, hfl, fsOf, cumtrapz, cumtrapzGo]
  refine ⟨le_refl 2, ?_⟩
  have h := c8_crash_signal_lengths idKernel [0, 1] [0, 0] 60
    { time_ms := [0, 1000], raw_accel_g := [0, 0], filtered_accel_g := [0, 0],
      velocity_kph := [0, 0], displacement_m := [0, 0], sample_rate := 1 }
    (fun _ _ => rfl) (by simp) (by simp) hrun
  exact h.2.2.2.1

-- ===== C1: drift-correction clip invariant =====

lemma pyZeroFromNat_getD (l : List ℚ) :
    ∀ k j, k ≤ j → (pyZeroFromNat l k).getD j 0 = 0 := by
  induction l with
  | nil => intro k j _; simp [pyZeroFromNat]
  | cons h tl ih =>
    intro k j hkj
    cases k with
    | zero =>
      cases j with
      | zero => simp [pyZeroFromNat]
      | succ j =>
        simp only [pyZeroFromNat, List.getD_cons_succ]
        exact ih 0 j (Nat.zero_le _)
    | succ k =>
      cases j with
      | zero => omega
      | succ j =>
        simp only [pyZeroFromNat, List.getD_cons_succ]
        exact ih k j (by omega)

lemma getD_map_mul (l : List ℚ) (c : ℚ) :
    ∀ j, (l.map (· * c)).getD j 0 = l.getD j 0 * c := by
  induction l with
  | nil => intro j; simp
  | cons h tl ih =>
    intro j
    cases j with
    | zero => simp
    | succ j => simpa using ih j

/-- C1: if the drift-correction scan of `SignalProcessor.process` detects
a velocity sign change (at absolute index s = start_search_idx +
zero_crossings[0], with start_search_idx = ⌊0.02·fs⌋ ≥ 0 since the time
step is positive), then every clipped-velocity sample and every
`velocity_kph` sample of the returned CrashSignal from index s onward is
exactly 0, and the displacement is the cumulative trapezoid integral of
the clipped velocity. -/
theorem c1_clip_invariant (bf : ℚ → List ℚ → List ℚ) (t a : List ℚ) (cfc : Int)
    (sig : CrashSignal) (s : Int)
    (hdt : 0 < t.getD 1 0 - t.getD 0 0)
    (hrun : process bf t a cfc = .ok sig)
    (hs : clipStop bf t a cfc = some s) :
    (∀ j : Nat, s ≤ (j : Int) → (clippedVelocity bf t a cfc).getD j 0 = 0) ∧
    (∀ j : Nat, s ≤ (j : Int) → sig.velocity_kph.getD j 0 = 0) ∧
    sig.displacement_m = cumtrapz t (clippedVelocity bf t a cfc) := by
  have hfs : 0 < fsOf t := by
    unfold fsOf
    positivity
  have hstart : 0 ≤ startSearchIdx t := by
    unfold startSearchIdx pyInt
    rw [if_pos (by positivity)]
    exact Int.floor_nonneg.mpr (by positivity)
  have hs0 : 0 ≤ s := by
    simp only [clipStop] at hs
    split at hs
    · split at hs
      · simp only [Option.some.injEq] at hs
        omega
      · exact absurd hs (by simp)
    · exact absurd hs (by simp)
  have hclip : ∀ j : Nat, s ≤ (j : Int) →
      (clippedVelocity bf t a cfc).getD j 0 = 0 := by
    intro j hj
    unfold clippedVelocity
    rw [hs]
    show (pyZeroFrom (rawVelocity bf t a cfc) s).getD j 0 = 0
    unfold pyZeroFrom pyIdx
    rw [if_pos hs0]
    exact pyZeroFromNat_getD _ _ _ (by omega)
  unfold process at hrun
  split at hrun
  · exact absurd hrun (by simp)
  · cases hrun
    refine ⟨hclip, ?_, rfl⟩
    intro j hj
    simp only []
    rw [getD_map_mul, hclip j hj, zero_mul]

/-- C1 witness: time = [0, 1, 2, 3] (fs = 1, search start ⌊0.02⌋ = 0) with
constant accel = [1, 1, 1, 1] gives velocity [0, g, 2g, 3g], whose sign
changes right at the start of the scan, so the whole velocity is clipped
to zero and the displacement integral is identically zero. -/
theorem c1_clip_invariant_witness :
    (clippedVelocity idKernel [0, 1, 2, 3] [1, 1, 1, 1] 60).getD 3 0 = 0 ∧
    ({ time_ms := [0, 1000, 2000, 3000], raw_accel_g := [1, 1, 1, 1],
       filtered_accel_g := [1, 1, 1, 1], velocity_kph := [0, 0, 0, 0],
       displacement_m := [0, 0, 0, 0],
       sample_rate := 1 } : CrashSignal).velocity_kph.getD 3 0 = 0 := by
  have hfl : filteredOf idKernel [0, 1, 2, 3] [1, 1, 1, 1] 60 = [1, 1, 1, 1] := by
    norm_num [filteredOf, applyCfcFilter, debiasPre, idKernel]
  have hcs : clipStop idKernel [0, 1, 2, 3] [1, 1, 1, 1] 60 = some 0 := by
    norm_num [clipStop, rawVelocity, filteredOf, applyCfcFilter, debiasPre,
      idKernel, cumtrapz, cumtrapzGo, startSearchIdx, pyInt, fsOf, pyDrop,
      pyIdx, npSign, firstDiffIdx]
  have hcv : clippedVelocity idKernel [0, 1, 2, 3] [1, 1, 1, 1] 60 =
      [0, 0, 0, 0] := by
    unfold clippedVelocity
    rw [hcs]
    norm_num [pyZeroFrom, pyIdx, pyZeroFromNat, rawVelocity, filteredOf,
      applyCfcFilter, debiasPre, idKernel, cumtrapz, cumtrapzGo]
  have hrun : process idKernel [0, 1, 2, 3] [1, 1, 1, 1] 60 =
      .ok { time_ms := [0, 1000, 2000, 3000], raw_accel_g := [1, 1, 1, 1],
            filtered_accel_g := [1, 1, 1, 1], velocity_kph := [0, 0, 0, 0],
            displacement_m := [0, 0, 0, 0], sample_rate := 1 } := by
    unfold process
    rw [if_neg (by norm_num)]
    norm_num [hcv, hfl, fsOf, cumtrapz, cumtrapzGo]
  have h := c1_clip_invariant idKernel [0, 1, 2, 3] [1, 1, 1, 1] 60
    { time_ms := [0, 1000, 2000, 3000], raw_accel_g := [1, 1, 1, 1],
      filtered_accel_g := [1, 1, 1, 1], velocity_kph := [0, 0, 0, 0],
      displacement_m := [0, 0, 0, 0], sample_rate := 1 } 0
    (by norm_num) hrun hcs
  exact ⟨h.1 3 (by norm_num), h.2.1 3 (by norm_num)⟩

-- ===== CrashPulseAnalyzer.preprocess_signal (pulse.py lines 101-136) =====

/-- Bias of `preprocess_signal`: mean of the first `min(N, 50)` samples. -/
def biasOf (raw_g : List ℚ) : ℚ :=
  (raw_g.take (min raw_g.length 50)).sum / ((min raw_g.length 50 : Nat) : ℚ)

/-- The zeroed trace `raw_g - bias`. -/
def zeroedOf (raw_g : List ℚ) : List ℚ := raw_g.map (· - biasOf raw_g)

/-- Scan of `numpy.argmax(numpy.abs(...))`: carries the current position,
the best absolute value so far and its (first) index. -/
def argmaxAbsGo : List ℚ → Nat → ℚ → Nat → Nat
  | [], _, _, bi => bi
  | x :: xs, i, bv, bi =>
      if bv < |x| then argmaxAbsGo xs (i + 1) |x| i else argmaxAbsGo xs (i + 1) bv bi

/-- Embeds `numpy.argmax(numpy.abs(l))`: first index of the maximal
absolute value (0 on the empty list, where numpy raises instead — the
caller models the raise). -/
def argmaxAbs : List ℚ → Nat
  | [] => 0
  | x :: xs => argmaxAbsGo xs 1 |x| 0

/-- Polarity-correction stage: negate the whole trace when the signed value
at the maximum-absolute-value index is positive. -/
def polarityCorrect (g : List ℚ) : List ℚ :=
  if 0 < g.getD (argmaxAbs g) 0 then g.map (fun x => -x) else g

/-- Time-zero alignment: shift time so the first sample whose absolute
value exceeds the 0.5 g trigger lands at 0; unshifted when none does. -/
def shiftedTimeOf (time_s g : List ℚ) : List ℚ :=
  match g.findIdx? (fun x => decide ((1 : ℚ) / 2 < |x|)) with
  | some i => time_s.map (· - time_s.getD i 0)
  | none => time_s

/-- Embeds `CrashPulseAnalyzer.preprocess_signal`. On an empty trace
`numpy.argmax` raises ValueError, modelled as the error branch; otherwise
bias removal, polarity correction and time-zero alignment are applied in
order and the pair (shifted_time, corrected_accel) is returned. -/
def preprocessSignal (time_s raw_g : List ℚ) : Except String (List ℚ × List ℚ) :=
  match raw_g with
  | [] => .error "attempt to get argmax of an empty sequence"
  | _ :: _ =>
    let corrected := polarityCorrect (zeroedOf raw_g)
    .ok (shiftedTimeOf time_s corrected, corrected)

-- ===== C5: behaviour on short inputs =====

/-- C5 counterexample: on the empty input `preprocess_signal` does not
return normally — `numpy.argmax` of the empty zeroed trace raises — so
the failure does not arise only at the next stage. -/
theorem c5_empty_input_counterexample :
    preprocessSignal [] [] = .error "attempt to get argmax of an empty sequence" := rfl

/-- C5 (amended): for inputs of length 1, `preprocess_signal` returns
normally with outputs of length 1; for the length-0 input it raises at
`numpy.argmax` itself; and `SignalProcessor.process` raises its
insufficient-data error exactly when the input has fewer than 2 samples. -/
theorem c5_short_input_amended :
    (∀ t a : List ℚ, t.length = 1 → a.length = 1 →
      ∃ st zg, preprocessSignal t a = .ok (st, zg) ∧
        st.length = 1 ∧ zg.length = 1) ∧
    (∀ t : List ℚ,
      preprocessSignal t [] = .error "attempt to get argmax of an empty sequence") ∧
    (∀ (bf : ℚ → List ℚ → List ℚ) (t a : List ℚ) (cfc : Int),
      t.length = a.length →
        (process bf t a cfc = .error "Data too short" ↔ t.length < 2)) := by
  refine ⟨?_, fun t => rfl, ?_⟩
  · intro t a ht ha
    match a, ha with
    | [x], _ =>
      refine ⟨t, [x - biasOf [x]], ?_, ht, rfl⟩
      have hbias : biasOf [x] = x := by
        norm_num [biasOf]
      norm_num [preprocessSignal, zeroedOf, polarityCorrect, argmaxAbs,
        argmaxAbsGo, shiftedTimeOf, hbias, List.findIdx?]
  · intro bf t a cfc _
    constructor
    · intro h
      by_contra hlt
      unfold process at h
      rw [if_neg hlt] at h
      exact absurd h (by simp)
    · intro h
      unfold process
      rw [if_pos h]

/-- C5 witness: the singleton input time = [7], accel = [3] preprocesses
normally to a pair of singletons, and `process` on a 2-sample input does
not raise while on [7] it does. -/
theorem c5_short_input_amended_witness :
    (∃ st zg, preprocessSignal [7] [3] = .ok (st, zg) ∧
      st.length = 1 ∧ zg.length = 1) ∧
    ¬ process idKernel [0, 1] [0, 0] 60 = .error "Data too short" ∧
    process idKernel [7] [3] 60 = .error "Data too short" := by
  have h := c5_short_input_amended
  refine ⟨h.1 [7] [3] rfl rfl, ?_, ?_⟩
  · intro hc
    exact absurd ((h.2.2 idKernel [0, 1] [0, 0] 60 rfl).mp hc) (by simp)
  · exact (h.2.2 idKernel [7] [3] 60 rfl).mpr (by simp)

-- ===== C7: polarity correction and its idempotence =====

lemma sum_take_map_sub (l : List ℚ) (b : ℚ) :
    ∀ n : Nat, ((l.map (· - b)).take n).sum = (l.take n).sum - (min n l.length : Nat) * b := by
  induction l with
  | nil => intro n; simp
  | cons h tl ih =>
    intro n
    cases n with
    | zero => simp
    | succ n =>
      simp only [List.map_cons, List.take_succ_cons, List.sum_cons, ih,
        List.length_cons, Nat.succ_min_succ]
      push_cast
      ring

lemma biasOf_map_neg (l : List ℚ) :
    biasOf (l.map (fun x => -x)) = -biasOf l := by
  unfold biasOf
  rw [List.length_map, ← List.map_take, ← List.sum_neg]
  ring

lemma biasOf_zeroedOf (l : List ℚ) (hne : l ≠ []) : biasOf (zeroedOf l) = 0 := by
  have hlen : 0 < l.length := List.length_pos.mpr hne
  have hn : (0 : ℚ) < ((min l.length 50 : Nat) : ℚ) := by
    have : 0 < min l.length 50 := by omega
    exact_mod_cast this
  unfold biasOf zeroedOf
  rw [List.length_map, sum_take_map_sub]
  have hmin : min (min l.length 50) l.length = min l.length 50 := by omega
  rw [hmin]
  unfold biasOf
  field_simp

lemma zeroedOf_of_bias_zero (l : List ℚ) (h : biasOf l = 0) : zeroedOf l = l := by
  unfold zeroedOf
  rw [h]
  simp

lemma argmaxAbsGo_map_neg (xs : List ℚ) :
    ∀ (i bi : Nat) (bv : ℚ),
      argmaxAbsGo (xs.map (fun x => -x)) i bv bi = argmaxAbsGo xs i bv bi := by
  induction xs with
  | nil => intro i bi bv; simp [argmaxAbsGo]
  | cons x xs ih =>
    intro i bi bv
    simp only [List.map_cons, argmaxAbsGo, abs_neg, ih]

lemma argmaxAbs_map_neg (l : List ℚ) :
    argmaxAbs (l.map (fun x => -x)) = argmaxAbs l := by
  cases l with
  | nil => rfl
  | cons x xs => simp only [List.map_cons, argmaxAbs, abs_neg, argmaxAbsGo_map_neg]

lemma getD_map_neg (l : List ℚ) :
    ∀ j, (l.map (fun x => -x)).getD j 0 = -(l.getD j 0) := by
  induction l with
  | nil => intro j; simp
  | cons h tl ih =>
    intro j
    cases j with
    | zero => simp
    | succ j => simp only [List.map_cons, List.getD_cons_succ, ih]

lemma biasOf_polarityCorrect_zeroedOf (raw : List ℚ) (hne : raw ≠ []) :
    biasOf (polarityCorrect (zeroedOf raw)) = 0 := by
  unfold polarityCorrect
  split
  · rw [biasOf_map_neg, biasOf_zeroedOf raw hne]
    ring
  · exact biasOf_zeroedOf raw hne

lemma polarityCorrect_of_polarityCorrect (raw : List ℚ) :
    polarityCorrect (polarityCorrect raw) = polarityCorrect raw := by
  by_cases h : 0 < raw.getD (argmaxAbs raw) 0
  · have h1 : polarityCorrect raw = raw.map (fun x => -x) := by
      unfold polarityCorrect
      rw [if_pos h]
    rw [h1]
    unfold polarityCorrect
    rw [argmaxAbs_map_neg, getD_map_neg, if_neg]
    simp only [not_lt]
    exact neg_nonpos.mpr (le_of_lt h)
  · have h1 : polarityCorrect raw = raw := by
      unfold polarityCorrect
      rw [if_neg h]
    rw [h1, h1]

/-- C7: in `preprocess_signal`, the negation is applied exactly when the
signed sample at the (first) maximum-absolute-value index of the zeroed
trace is positive — in particular a trace whose extreme sample is
negative is left un-negated — and re-running preprocessing on an already
preprocessed pair never flips the sign again. -/
theorem c7_polarity_idempotence (t raw : List ℚ) (hne : raw ≠ []) :
    (¬ 0 < (zeroedOf raw).getD (argmaxAbs (zeroedOf raw)) 0 →
      preprocessSignal t raw =
        .ok (shiftedTimeOf t (zeroedOf raw), zeroedOf raw)) ∧
    (0 < (zeroedOf raw).getD (argmaxAbs (zeroedOf raw)) 0 →
      preprocessSignal t raw =
        .ok (shiftedTimeOf t ((zeroedOf raw).map (fun x => -x)),
          (zeroedOf raw).map (fun x => -x))) ∧
    (∀ st out st2 out2, preprocessSignal t raw = .ok (st, out) →
      preprocessSignal st out = .ok (st2, out2) → out2 = out) := by
  match raw, hne with
  | r :: rs, _ =>
    refine ⟨?_, ?_, ?_⟩
    · intro h
      simp only [preprocessSignal, polarityCorrect, if_neg h]
    · intro h
      simp only [preprocessSignal, polarityCorrect, if_pos h]
    · intro st out st2 out2 h1 h2
      simp only [preprocessSignal, Except.ok.injEq, Prod.mk.injEq] at h1
      have hout : out = polarityCorrect (zeroedOf (r :: rs)) := h1.2.symm
      have houtne : out ≠ [] := by
        rw [hout]
        unfold polarityCorrect
        split <;> simp [zeroedOf]
      match out, houtne with
      | o :: os, _ =>
        simp only [preprocessSignal, Except.ok.injEq, Prod.mk.injEq] at h2
        have hbias : biasOf (o :: os) = 0 := by
          rw [hout]
          exact biasOf_polarityCorrect_zeroedOf (r :: rs) (by simp)
        have hz : zeroedOf (o :: os) = o :: os := zeroedOf_of_bias_zero _ hbias
        rw [← h2.2, hz, hout, polarityCorrect_of_polarityCorrect]

/-- C7 witness: time = [0, 1, 2], accel = [0, -3, 1] has zeroed trace
[2/3, -7/3, 5/3] whose extreme sample -7/3 is negative, so the signal is
returned without negation. -/
theorem c7_polarity_idempotence_witness :
    ¬ 0 < (zeroedOf [0, -3, 1]).getD (argmaxAbs (zeroedOf [0, -3, 1])) 0 ∧
    preprocessSignal [0, 1, 2] [0, -3, 1] =
      .ok (shiftedTimeOf [0, 1, 2] (zeroedOf [0, -3, 1]), zeroedOf [0, -3, 1]) := by
  have hbias : biasOf [0, -3, 1] = -2 / 3 := by
    norm_num [biasOf]
  have hz : zeroedOf [0, -3, 1] = [2 / 3, -7 / 3, 5 / 3] := by
    norm_num [zeroedOf, hbias]
  have habs1 : |(2 : ℚ) / 3| = 2 / 3 := by
    rw [abs_of_pos]
    norm_num
  have habs2 : |(-7 : ℚ) / 3| = 7 / 3 := by
    rw [abs_of_neg (by norm_num)]
    norm_num
  have habs3 : |(5 : ℚ) / 3| = 5 / 3 := by
    rw [abs_of_pos]
    norm_num
  have habs4 : |(7 : ℚ) / 3| = 7 / 3 := by
    rw [abs_of_pos]
    norm_num
  have hidx : argmaxAbs [2 / 3, -7 / 3, 5 / 3] = 1 := by
    norm_num [argmaxAbs, argmaxAbsGo, habs1, habs2, habs3, habs4]
  have hcond : ¬ 0 < (zeroedOf [0, -3, 1]).getD (argmaxAbs (zeroedOf [0, -3, 1])) 0 := by
    rw [hz, hidx]
    norm_num
  exact ⟨hcond, (c7_polarity_idempotence [0, 1, 2] [0, -3, 1] (by simp)).1 hcond⟩

-- ===== CrashPulseAnalyzer.find_vehicle_accel_channel (pulse.py lines 22-99) =====

/-- Uppercased character list of a string, embedding Python `.upper()`
on the ASCII metadata/name strings involved. -/
def upper (s : String) : List Char := s.data.map Char.toUpper

/-- Whether `needle` matches `hay` position by position from the front. -/
def matchesAt : List Char → List Char → Bool
  | [], _ => true
  | _ :: _, [] => false
  | a :: as, b :: bs => a = b && matchesAt as bs

/-- Embeds the Python substring test `needle in hay`. -/
def occursIn (needle hay : List Char) : Bool :=
  match hay with
  | [] => matchesAt needle []
  | _ :: tl => matchesAt needle hay || occursIn needle tl

/-- One channel of the multi-channel waveform source: its name and the
string values of the SENTYPD / SENLOCD / AXISD properties (missing
properties read as the empty string via `props.get(..., "")`). -/
structure TdmsChannel where
  name : String
  sentypd : String
  senlocd : String
  axisd : String
deriving DecidableEq

/-- Transient channel candidate: channel handle, location score, label. -/
structure Candidate where
  channel : TdmsChannel
  score : Nat
  loc : String
deriving DecidableEq

/-- Metadata test of Case A: sensor type contains ACCEL and axis contains
X or LONG. -/
def metaPass (c : TdmsChannel) : Bool :=
  occursIn "ACCEL".data (upper c.sentypd) &&
    (occursIn "X".data (upper c.axisd) || occursIn "LONG".data (upper c.axisd))

/-- Location score from the declared sensor location (Case A). -/
def metaScore (c : TdmsChannel) : Nat :=
  if occursIn "REAR".data (upper c.senlocd) &&
      (occursIn "SILL".data (upper c.senlocd) || occursIn "FLOOR".data (upper c.senlocd))
  then 3
  else if occursIn "CG".data (upper c.senlocd) then 2
  else if occursIn "PILLAR".data (upper c.senlocd) then 1
  else 0

/-- Name test of Case B: the channel name carries an X-axis accel code. -/
def namePass (c : TdmsChannel) : Bool :=
  occursIn "AC1".data (upper c.name) || occursIn "ACX".data (upper c.name)

/-- Location score parsed from the channel name (Case B). -/
def nameScore (c : TdmsChannel) : Nat :=
  if occursIn "LERE".data (upper c.name) || occursIn "RIRE".data (upper c.name) then 3
  else if occursIn "CG".data (upper c.name) then 2
  else if occursIn "PILLAR".data (upper c.name) || occursIn "PIL".data (upper c.name) then 1
  else 0

/-- Location label parsed from the channel name (Case B). -/
def nameLoc (c : TdmsChannel) : String :=
  if occursIn "LERE".data (upper c.name) || occursIn "RIRE".data (upper c.name) then
    "Rear Sill/Floor (From Name)"
  else if occursIn "CG".data (upper c.name) then "Vehicle CG (From Name)"
  else "B-Pillar (From Name)"

/-- Candidate classification of one channel: Case A when the metadata test
passes, otherwise Case B on the name; registered only when the channel is
an X accel and its location score is positive. -/
def classifyChannel (c : TdmsChannel) : Option Candidate :=
  if metaPass c then
    if 0 < metaScore c then
      some { channel := c, score := metaScore c, loc := String.mk (upper c.senlocd) }
    else none
  else if namePass c then
    if 0 < nameScore c then
      some { channel := c, score := nameScore c, loc := nameLoc c }
    else none
  else none

/-- Candidate list over the flattened group/channel iteration order. -/
def candidatesOf (chans : List TdmsChannel) : List Candidate :=
  chans.filterMap classifyChannel

/-- Comparison used by `candidates.sort(key=..., reverse=True)`: a sorts
no later than b when its score is at least b's. -/
def scoreGE (a b : Candidate) : Prop := b.score ≤ a.score

instance : DecidableRel scoreGE := fun a b => inferInstanceAs (Decidable (b.score ≤ a.score))

/-- Embeds `find_vehicle_accel_channel`: stable-sort the candidates by
descending score and return the channel of the first one, if any. -/
def findVehicleAccelChannel (chans : List TdmsChannel) : Option TdmsChannel :=
  (((candidatesOf chans).insertionSort scoreGE).head?).map (·.channel)

/-- Prefer the better-scoring of a candidate and an optional later
best, the earlier one on ties. -/
def betterCand (c : Candidate) : Option Candidate → Option Candidate
  | none => some c
  | some d => if c.score < d.score then some d else some c

/-- Selection rule in the spec's words: the first candidate in iteration
order achieving the maximum score. -/
def firstMaxCand : List Candidate → Option Candidate
  | [] => none
  | c :: cs => betterCand c (firstMaxCand cs)

lemma firstMaxCand_eq_none (l : List Candidate) : firstMaxCand l = none ↔ l = [] := by
  cases l with
  | nil => simp [firstMaxCand]
  | cons c cs =>
    constructor
    · intro hh
      exfalso
      rw [show firstMaxCand (c :: cs) = betterCand c (firstMaxCand cs) from rfl] at hh
      cases hx : firstMaxCand cs with
      | none => rw [hx] at hh; cases hh
      | some d =>
        rw [hx] at hh
        simp only [betterCand] at hh
        by_cases hc : c.score < d.score
        · rw [if_pos hc] at hh; cases hh
        · rw [if_neg hc] at hh; cases hh
    · intro hh
      cases hh

lemma insertionSort_head (l : List Candidate) :
    (l.insertionSort scoreGE).head? = firstMaxCand l := by
  induction l with
  | nil => rfl
  | cons c cs ih =>
    show (List.orderedInsert scoreGE c (cs.insertionSort scoreGE)).head? = _
    cases hs : cs.insertionSort scoreGE with
    | nil =>
      have hcs : cs = [] := by
        have hlen := (List.perm_insertionSort scoreGE cs).length_eq
        rw [hs] at hlen
        exact List.length_eq_zero.mp hlen.symm
      subst hcs
      rfl
    | cons d t =>
      rw [hs] at ih
      simp only [List.head?_cons] at ih
      simp only [firstMaxCand, ← ih, betterCand]
      by_cases h : scoreGE c d
      · simp only [List.orderedInsert, if_pos h, List.head?_cons]
        have hnl : ¬ c.score < d.score := by
          unfold scoreGE at h
          omega
        rw [if_neg hnl]
      · simp only [List.orderedInsert, if_neg h, List.head?_cons]
        have hl : c.score < d.score := by
          unfold scoreGE at h
          omega
        rw [if_pos hl]

lemma firstMaxCand_spec (l : List Candidate) (c : Candidate) (h : firstMaxCand l = some c) :
    (∃ pre post, l = pre ++ c :: post ∧ ∀ d ∈ pre, d.score < c.score) ∧
    ∀ d ∈ l, d.score ≤ c.score := by
  induction l generalizing c with
  | nil => cases h
  | cons x xs ih =>
    rw [show firstMaxCand (x :: xs) = betterCand x (firstMaxCand xs) from rfl] at h
    cases hx : firstMaxCand xs with
    | none =>
      rw [hx] at h
      simp only [betterCand] at h
      cases h
      have hxs : xs = [] := (firstMaxCand_eq_none xs).mp hx
      subst hxs
      exact ⟨⟨[], [], rfl, by simp⟩, by simp⟩
    | some d =>
      rw [hx] at h
      simp only [betterCand] at h
      obtain ⟨⟨pre', post', hsplit, hpre⟩, hmax⟩ := ih d hx
      by_cases hcmp : x.score < d.score
      · rw [if_pos hcmp] at h
        cases h
        refine ⟨⟨x :: pre', post', by simp [hsplit], ?_⟩, ?_⟩
        · intro e he
          rcases List.mem_cons.mp he with rfl | he
          · exact hcmp
          · exact hpre e he
        · intro e he
          rcases List.mem_cons.mp he with rfl | he
          · exact le_of_lt hcmp
          · exact hmax e he
      · rw [if_neg hcmp] at h
        cases h
        refine ⟨⟨[], xs, rfl, by simp⟩, ?_⟩
        intro e he
        rcases List.mem_cons.mp he with rfl | he
        · exact le_refl _
        · exact le_trans (hmax e he) (by omega)

/-- C4: the locator returns exactly the channel of the first candidate
achieving the maximum location score (maximum score wins, ties broken by
first-encountered order in the group/channel iteration). -/
theorem c4_max_score_first_tie (chans : List TdmsChannel) :
    findVehicleAccelChannel chans =
      (firstMaxCand (candidatesOf chans)).map (·.channel) ∧
    ∀ c, firstMaxCand (candidatesOf chans) = some c →
      (∃ pre post, candidatesOf chans = pre ++ c :: post ∧
        ∀ d ∈ pre, d.score < c.score) ∧
      ∀ d ∈ candidatesOf chans, d.score ≤ c.score := by
  constructor
  · unfold findVehicleAccelChannel
    rw [insertionSort_head]
  · intro c h
    exact firstMaxCand_spec _ c h

/-- Synthetic rear-sill channel (score 3 by metadata). -/
def chanRear : TdmsChannel :=
  { name := "CH REAR", sentypd := "Accelerometer", senlocd := "Rear Sill Left",
    axisd := "X" }

/-- Synthetic center-of-gravity channel (score 2 by metadata). -/
def chanCG : TdmsChannel :=
  { name := "CH CG", sentypd := "Accelerometer", senlocd := "Vehicle CG",
    axisd := "Longitudinal" }

/-- Synthetic B-pillar channel (score 1 by metadata). -/
def chanPillar : TdmsChannel :=
  { name := "CH BP", sentypd := "Accelerometer", senlocd := "B-Pillar Right",
    axisd := "X" }

/-- C4 witness: among pillar (1), CG (2) and rear-sill (3) candidates the
locator selects the rear-sill channel. -/
theorem c4_max_score_first_tie_witness :
    findVehicleAccelChannel [chanPillar, chanCG, chanRear] = some chanRear := by
  rw [(c4_max_score_first_tie [chanPillar, chanCG, chanRear]).1]
  decide

lemma classifyChannel_channel (c : TdmsChannel) (cand : Candidate)
    (h : classifyChannel c = some cand) : cand.channel = c := by
  unfold classifyChannel at h
  split_ifs at h <;> cases h <;> rfl

/-- C9: a channel passing the metadata test (ACCEL sensor type, X/LONG
axis) whose declared location matches none of the three scored locations
gets location score 0 and is discarded without its name ever being
examined: it classifies to no candidate whatever its name is, and the
locator never selects it. -/
theorem c9_metadata_pass_score_zero (c : TdmsChannel)
    (hmeta : metaPass c = true) (hscore : metaScore c = 0) :
    (∀ nm : String, classifyChannel { c with name := nm } = none) ∧
    ∀ chans ch, findVehicleAccelChannel chans = some ch → ch ≠ c := by
  have hnone : ∀ nm : String, classifyChannel { c with name := nm } = none := by
    intro nm
    have hmeta2 : metaPass { c with name := nm } = true := hmeta
    have hscore2 : metaScore { c with name := nm } = 0 := hscore
    unfold classifyChannel
    rw [if_pos hmeta2, hscore2, if_neg (by omega)]
  refine ⟨hnone, ?_⟩
  intro chans ch hfind heq
  unfold findVehicleAccelChannel at hfind
  rcases Option.map_eq_some'.mp hfind with ⟨cand, hhead, hchan⟩
  have hmem : cand ∈ (candidatesOf chans).insertionSort scoreGE := by
    cases hsort : (candidatesOf chans).insertionSort scoreGE with
    | nil => rw [hsort] at hhead; cases hhead
    | cons d t =>
      rw [hsort] at hhead
      simp only [List.head?_cons, Option.some.injEq] at hhead
      rw [hhead]
      exact List.mem_cons_self _ _
  have hmem2 : cand ∈ candidatesOf chans :=
    (List.perm_insertionSort scoreGE (candidatesOf chans)).mem_iff.mp hmem
  rcases List.mem_filterMap.mp hmem2 with ⟨chan, _, hclass⟩
  have hch : cand.channel = chan := classifyChannel_channel chan cand hclass
  have hchanc : chan = c := by
    rw [← hch, hchan, heq]
  rw [hchanc] at hclass
  have h0 := hnone c.name
  have hcc : ({ c with name := c.name } : TdmsChannel) = c := rfl
  rw [hcc] at h0
  rw [h0] at hclass
  cases hclass

/-- Channel with live ACCEL/X metadata, an unscored DOOR location, and an
ISO-style name that carries both an X-accel code and a CG location code. -/
def chanDoorNamedCG : TdmsChannel :=
  { name := "10VEHCCG0000AC1P", sentypd := "ACCEL", senlocd := "DOOR",
    axisd := "X" }

/-- C9 witness: `chanDoorNamedCG` classifies to no candidate despite its
name, and a CG-scored channel is selected over it. -/
theorem c9_metadata_pass_score_zero_witness :
    classifyChannel chanDoorNamedCG = none ∧ chanCG ≠ chanDoorNamedCG := by
  have h := c9_metadata_pass_score_zero chanDoorNamedCG (by decide) (by decide)
  constructor
  · have h1 := h.1 "10VEHCCG0000AC1P"
    exact h1
  · exact h.2 [chanDoorNamedCG, chanCG] chanCG (by decide)

-- ===== CrashAnalysisPipeline.run (pipeline.py lines 11-43) =====

/-- Value stored in the pipeline result mapping: the embedded CrashSignal
under the reserved key, numeric metric outputs, or error strings. -/
inductive PipeValue where
  | sig (s : CrashSignal)
  | num (q : ℚ)
  | str (s : String)
deriving DecidableEq

/-- Embeds Python `d[k] = v` on a dict: overwrite in place when the key
exists, append at the end otherwise. -/
def dictInsert {α : Type} : List (String × α) → String → α → List (String × α)
  | [], k, v => [(k, v)]
  | (k0, v0) :: rest, k, v =>
      if k0 = k then (k0, v) :: rest else (k0, v0) :: dictInsert rest k v

/-- Embeds Python `d.update(entries)`. -/
def dictUpdate {α : Type} (d entries : List (String × α)) : List (String × α) :=
  entries.foldl (fun acc e => dictInsert acc e.1 e.2) d

/-- Embeds Python dict lookup `d[k]` / `k in d`. -/
def dlookup {α : Type} (d : List (String × α)) (k : String) : Option α :=
  (d.find? (fun p => p.1 == k)).map (·.2)

/-- Modelled from the spec: the `MetricStrategy` interface of
src/analysis/metrics/base.py, which is not among the analyzed sources —
"exposes calculate(signal) -> mapping<string, value> and owns a mutable
parameter bag (e.g. vehicle mass)". `name` stands for the Python class
name used in the `Error_<MetricName>` keys, and a metric that raises is
modelled by the error branch of `calculate`. -/
structure Metric where
  name : String
  params : List (String × ℚ)
  calculate : List (String × ℚ) → CrashSignal → Except String (List (String × PipeValue))

/-- Python truthiness of the `vehicle_weight` argument: false for None
and for 0. -/
def pyTruthy (w : Option ℚ) : Bool :=
  match w with
  | some v => decide (v ≠ 0)
  | none => false

/-- Embeds the injection step `if vehicle_weight and "vehicle_mass" not in
metric.params: metric.params["vehicle_mass"] = vehicle_weight`. -/
def injectMass (w : Option ℚ) (m : Metric) : Metric :=
  if pyTruthy w = true ∧ dlookup m.params "vehicle_mass" = none then
    { m with params := dictInsert m.params "vehicle_mass" (w.getD 0) }
  else m

/-- Metric loop of `run`: inject the weight, call calculate on the metric
bag, merge the outputs, or record `Error_<name>` when the call raises. -/
def runMetrics (sig : CrashSignal) (w : Option ℚ) :
    List Metric → List (String × PipeValue) → List (String × PipeValue)
  | [], d => d
  | m :: ms, d =>
    match (injectMass w m).calculate (injectMass w m).params sig with
    | .ok out => runMetrics sig w ms (dictUpdate d out)
    | .error e =>
        runMetrics sig w ms (dictInsert d ("Error_" ++ (injectMass w m).name) (.str e))

/-- Embeds `CrashAnalysisPipeline.run`: process the raw data at CFC 60,
seed the result map with the signal object, then run every metric. The
returned metric list is the pipeline's metric state after the in-place
parameter mutations. -/
def run (bf : ℚ → List ℚ → List ℚ) (metrics : List Metric)
    (time_data accel_data : List ℚ) (w : Option ℚ) :
    Except String (List (String × PipeValue) × List Metric) :=
  match process bf time_data accel_data 60 with
  | .error e => .error e
  | .ok sig =>
      .ok (runMetrics sig w metrics [("signal_obj", .sig sig)],
        metrics.map (injectMass w))

lemma injectMass_name (w : Option ℚ) (m : Metric) : (injectMass w m).name = m.name := by
  unfold injectMass
  split <;> rfl

lemma dlookup_cons {α : Type} (k0 : String) (v0 : α) (rest : List (String × α))
    (k2 : String) :
    dlookup ((k0, v0) :: rest) k2 = if k0 = k2 then some v0 else dlookup rest k2 := by
  simp only [dlookup, List.find?]
  by_cases h : k0 = k2
  · rw [beq_iff_eq.mpr h, if_pos h]
    rfl
  · rw [beq_eq_false_iff_ne.mpr h, if_neg h]

lemma dlookup_dictInsert {α : Type} (d : List (String × α)) (k k2 : String) (v : α) :
    dlookup (dictInsert d k v) k2 = if k2 = k then some v else dlookup d k2 := by
  induction d with
  | nil =>
    show dlookup [(k, v)] k2 = _
    rw [dlookup_cons]
    by_cases h : k2 = k
    · rw [if_pos h.symm, if_pos h]
    · rw [if_neg (fun hh => h hh.symm), if_neg h]
  | cons e rest ih =>
    obtain ⟨k0, v0⟩ := e
    show dlookup (if k0 = k then (k0, v) :: rest else (k0, v0) :: dictInsert rest k v) k2
      = _
    by_cases h0 : k0 = k
    · subst h0
      rw [if_pos rfl, dlookup_cons]
      by_cases h2 : k0 = k2
      · rw [if_pos h2, if_pos h2.symm]
      · rw [if_neg h2, if_neg (fun hh => h2 hh.symm), dlookup_cons, if_neg h2]
    · rw [if_neg h0, dlookup_cons, ih]
      by_cases h2 : k0 = k2
      · subst h2
        rw [if_pos rfl, if_neg (fun hh : k0 = k => h0 hh), dlookup_cons, if_pos rfl]
      · rw [if_neg h2]
        by_cases hk : k2 = k
        · rw [if_pos hk, if_pos hk]
        · rw [if_neg hk, if_neg hk, dlookup_cons, if_neg h2]

lemma dlookup_dictUpdate_of_not_mem {α : Type} (out : List (String × α)) :
    ∀ (d : List (String × α)) (k : String), (∀ kv ∈ out, kv.1 ≠ k) →
      dlookup (dictUpdate d out) k = dlookup d k := by
  induction out with
  | nil => intro d k _; rfl
  | cons e es ih =>
    intro d k hk
    show dlookup (dictUpdate (dictInsert d e.1 e.2) es) k = dlookup d k
    rw [ih _ k (fun kv hkv => hk kv (List.mem_cons_of_mem e hkv))]
    rw [dlookup_dictInsert]
    rw [if_neg]
    exact fun h => hk e (List.mem_cons_self e es) h.symm

lemma dlookup_dictUpdate_pointwise {α : Type} (out : List (String × α)) :
    ∀ (d1 d2 : List (String × α)) (k : String), dlookup d1 k = dlookup d2 k →
      dlookup (dictUpdate d1 out) k = dlookup (dictUpdate d2 out) k := by
  induction out with
  | nil => intro d1 d2 k h; exact h
  | cons e es ih =>
    intro d1 d2 k h
    show dlookup (dictUpdate (dictInsert d1 e.1 e.2) es) k =
      dlookup (dictUpdate (dictInsert d2 e.1 e.2) es) k
    apply ih
    rw [dlookup_dictInsert, dlookup_dictInsert]
    by_cases hk : k = e.1
    · rw [if_pos hk, if_pos hk]
    · rw [if_neg hk, if_neg hk]
      exact h

lemma runMetrics_cons (sig : CrashSignal) (w : Option ℚ) (m : Metric) (ms : List Metric)
    (d : List (String × PipeValue)) :
    runMetrics sig w (m :: ms) d =
      match (injectMass w m).calculate (injectMass w m).params sig with
      | .ok out => runMetrics sig w ms (dictUpdate d out)
      | .error e =>
          runMetrics sig w ms (dictInsert d ("Error_" ++ (injectMass w m).name) (.str e)) :=
  rfl

lemma runMetrics_append (sig : CrashSignal) (w : Option ℚ) (xs ys : List Metric) :
    ∀ d, runMetrics sig w (xs ++ ys) d = runMetrics sig w ys (runMetrics sig w xs d) := by
  induction xs with
  | nil => intro d; rfl
  | cons m ms ih =>
    intro d
    rw [List.cons_append, runMetrics_cons, runMetrics_cons]
    cases h : (injectMass w m).calculate (injectMass w m).params sig with
    | ok out => exact ih (dictUpdate d out)
    | error e => exact ih (dictInsert d ("Error_" ++ (injectMass w m).name) (.str e))

lemma runMetrics_preserve (sig : CrashSignal) (w : Option ℚ) (K : String) (v : PipeValue)
    (ms : List Metric) :
    ∀ (d1 d2 : List (String × PipeValue)),
      (∀ m ∈ ms, ∃ out, (injectMass w m).calculate (injectMass w m).params sig = .ok out ∧
        ∀ kv ∈ out, kv.1 ≠ K) →
      dlookup d1 K = some v →
      (∀ k, k ≠ K → dlookup d1 k = dlookup d2 k) →
      dlookup (runMetrics sig w ms d1) K = some v ∧
      (∀ k, k ≠ K → dlookup (runMetrics sig w ms d1) k = dlookup (runMetrics sig w ms d2) k) := by
  induction ms with
  | nil => intro d1 d2 _ hK hagree; exact ⟨hK, hagree⟩
  | cons m ms ih =>
    intro d1 d2 hms hK hagree
    obtain ⟨out, hcalc, havoid⟩ := hms m (List.mem_cons_self m ms)
    have hrest : ∀ mo ∈ ms, ∃ out,
        (injectMass w mo).calculate (injectMass w mo).params sig = .ok out ∧
        ∀ kv ∈ out, kv.1 ≠ K :=
      fun mo hmo => hms mo (List.mem_cons_of_mem m hmo)
    have hstep1 : runMetrics sig w (m :: ms) d1 = runMetrics sig w ms (dictUpdate d1 out) := by
      rw [runMetrics_cons, hcalc]
    have hstep2 : runMetrics sig w (m :: ms) d2 = runMetrics sig w ms (dictUpdate d2 out) := by
      rw [runMetrics_cons, hcalc]
    rw [hstep1, hstep2]
    refine ih (dictUpdate d1 out) (dictUpdate d2 out) hrest ?_ ?_
    · rw [dlookup_dictUpdate_of_not_mem out d1 K havoid]
      exact hK
    · intro k hk
      exact dlookup_dictUpdate_pointwise out d1 d2 k (hagree k hk)

lemma run_metrics_state (bf : ℚ → List ℚ → List ℚ) (metrics : List Metric)
    (t a : List ℚ) (w : Option ℚ) (res : List (String × PipeValue)) (ms2 : List Metric)
    (hrun : run bf metrics t a w = .ok (res, ms2)) :
    ms2 = metrics.map (injectMass w) := by
  unfold run at hrun
  cases hp : process bf t a 60 with
  | error e => rw [hp] at hrun; cases hrun
  | ok sig =>
    rw [hp] at hrun
    cases hrun
    rfl

-- ===== C2: per-metric failure isolation =====

/-- C2: if one registered metric raises while every other metric computes
normally (and no other metric writes the failing metric's error key), the
run still returns normally, the result maps `Error_<MetricClassName>` to
the error message, and at every other key the result agrees with the run
of the pipeline without the failing metric — i.e. the full merged results
of the remaining metrics are present. -/
theorem c2_error_isolation (bf : ℚ → List ℚ → List ℚ) (t a : List ℚ) (w : Option ℚ)
    (pre post : List Metric) (m : Metric) (sig : CrashSignal) (e : String)
    (hsig : process bf t a 60 = .ok sig)
    (hfail : (injectMass w m).calculate (injectMass w m).params sig = .error e)
    (hothers : ∀ mo ∈ pre ++ post, ∃ out,
      (injectMass w mo).calculate (injectMass w mo).params sig = .ok out ∧
      ∀ kv ∈ out, kv.1 ≠ "Error_" ++ m.name) :
    ∃ res ms1 res2 ms2,
      run bf (pre ++ m :: post) t a w = .ok (res, ms1) ∧
      run bf (pre ++ post) t a w = .ok (res2, ms2) ∧
      dlookup res ("Error_" ++ m.name) = some (.str e) ∧
      ∀ k, k ≠ "Error_" ++ m.name → dlookup res k = dlookup res2 k := by
  have hrun1 : run bf (pre ++ m :: post) t a w =
      .ok (runMetrics sig w (pre ++ m :: post) [("signal_obj", .sig sig)],
        (pre ++ m :: post).map (injectMass w)) := by
    unfold run
    rw [hsig]
  have hrun2 : run bf (pre ++ post) t a w =
      .ok (runMetrics sig w (pre ++ post) [("signal_obj", .sig sig)],
        (pre ++ post).map (injectMass w)) := by
    unfold run
    rw [hsig]
  have hothersPost : ∀ mo ∈ post, ∃ out,
      (injectMass w mo).calculate (injectMass w mo).params sig = .ok out ∧
      ∀ kv ∈ out, kv.1 ≠ "Error_" ++ m.name :=
    fun mo hmo => hothers mo (List.mem_append_right pre hmo)
  have hsplit1 : runMetrics sig w (pre ++ m :: post) [("signal_obj", .sig sig)] =
      runMetrics sig w post (runMetrics sig w [m]
        (runMetrics sig w pre [("signal_obj", .sig sig)])) := by
    rw [show pre ++ m :: post = (pre ++ [m]) ++ post by simp, runMetrics_append,
      runMetrics_append]
  have hm : runMetrics sig w [m] (runMetrics sig w pre [("signal_obj", .sig sig)]) =
      dictInsert (runMetrics sig w pre [("signal_obj", .sig sig)])
        ("Error_" ++ m.name) (.str e) := by
    rw [runMetrics_cons, hfail, injectMass_name]
    rfl
  have hsplit2 : runMetrics sig w (pre ++ post) [("signal_obj", .sig sig)] =
      runMetrics sig w post (runMetrics sig w pre [("signal_obj", .sig sig)]) :=
    runMetrics_append sig w pre post _
  have hpres := runMetrics_preserve sig w ("Error_" ++ m.name) (.str e) post
    (dictInsert (runMetrics sig w pre [("signal_obj", .sig sig)])
      ("Error_" ++ m.name) (.str e))
    (runMetrics sig w pre [("signal_obj", .sig sig)]) hothersPost
    (by rw [dlookup_dictInsert, if_pos rfl])
    (by intro k hk; rw [dlookup_dictInsert, if_neg hk])
  refine ⟨_, _, _, _, hrun1, hrun2, ?_, ?_⟩
  · rw [hsplit1, hm]
    exact hpres.1
  · intro k hk
    rw [hsplit1, hm, hsplit2]
    exact hpres.2 k hk

/-- Flat CrashSignal produced by `process` on time = [0, 1], accel = [0, 0]. -/
def flatSig : CrashSignal :=
  { time_ms := [0, 1000], raw_accel_g := [0, 0], filtered_accel_g := [0, 0],
    velocity_kph := [0, 0], displacement_m := [0, 0], sample_rate := 1 }

lemma process_flatSig : process idKernel [0, 1] [0, 0] 60 = .ok flatSig := by
  have hfl : filteredOf idKernel [0, 1] [0, 0] 60 = [0, 0] := by
    norm_num [filteredOf, applyCfcFilter, debiasPre, idKernel]
  have hcs : clipStop idKernel [0, 1] [0, 0] 60 = none := by
    norm_num [clipStop, rawVelocity, filteredOf, applyCfcFilter, debiasPre,
      idKernel, cumtrapz, cumtrapzGo, startSearchIdx, pyInt, fsOf, pyDrop,
      pyIdx, npSign, firstDiffIdx]
  have hcv : clippedVelocity idKernel [0, 1] [0, 0] 60 = [0, 0] := by
    unfold clippedVelocity
    rw [hcs]
    norm_num [rawVelocity, filteredOf, applyCfcFilter, debiasPre, idKernel,
      cumtrapz, cumtrapzGo]
  unfold process
  rw [if_neg (by norm_num)]
  norm_num [hcv, hfl, fsOf, cumtrapz, cumtrapzGo, flatSig]

/-- Metric that returns one numeric entry under key a. -/
def metA : Metric := { name := "A", params := [], calculate := fun _ _ => .ok [("a", .num 1)] }

/-- Metric that always raises. -/
def metBad : Metric := { name := "Bad", params := [], calculate := fun _ _ => .error "boom" }

/-- Metric that returns one numeric entry under key c. -/
def metC : Metric := { name := "C", params := [], calculate := fun _ _ => .ok [("c", .num 2)] }

/-- Lookup inside the result mapping of a pipeline run. -/
def runLookup (r : Except String (List (String × PipeValue) × List Metric))
    (k : String) : Option PipeValue :=
  match r with
  | .ok p => dlookup p.1 k
  | .error _ => none

/-- C2 witness: with metrics [A, Bad, C] where Bad always raises "boom",
the run returns normally, records the error under Error_Bad, and agrees at
key a with the run on [A, C] alone. -/
theorem c2_error_isolation_witness :
    runLookup (run idKernel [metA, metBad, metC] [0, 1] [0, 0] none)
      ("Error_" ++ metBad.name) = some (.str "boom") ∧
    runLookup (run idKernel [metA, metBad, metC] [0, 1] [0, 0] none) "a" =
      runLookup (run idKernel [metA, metC] [0, 1] [0, 0] none) "a" := by
  obtain ⟨res, ms1, res2, ms2, hr1, hr2, herr, hagree⟩ :=
    c2_error_isolation idKernel [0, 1] [0, 0] none [metA] [metC] metBad flatSig "boom"
      process_flatSig rfl
      (by
        intro mo hmo
        rcases List.mem_append.mp hmo with hmo | hmo
        · rcases List.mem_singleton.mp hmo with rfl
          exact ⟨[("a", .num 1)], rfl, by
            intro kv hkv
            rcases List.mem_singleton.mp hkv with rfl
            decide⟩
        · rcases List.mem_singleton.mp hmo with rfl
          exact ⟨[("c", .num 2)], rfl, by
            intro kv hkv
            rcases List.mem_singleton.mp hkv with rfl
            decide⟩)
  simp only [List.cons_append, List.nil_append] at hr1 hr2
  constructor
  · rw [hr1]
    exact herr
  · rw [hr1, hr2]
    exact hagree "a" (by decide)

-- ===== C6: vehicle-mass injection =====

/-- Metric with an empty parameter bag. -/
def cmNoMass : Metric := { name := "M", params := [], calculate := fun _ _ => .ok [] }

/-- Metric whose bag already carries vehicle_mass = 5. -/
def cmWithMass : Metric :=
  { name := "K", params := [("vehicle_mass", 5)], calculate := fun _ _ => .ok [] }

/-- The vehicle_mass entries of the metric state after a run. -/
def massEntries (r : Except String (List (String × PipeValue) × List Metric)) :
    List (Option ℚ) :=
  match r with
  | .ok p => p.2.map (fun m => dlookup m.params "vehicle_mass")
  | .error _ => []

/-- C6 counterexample: vehicle_weight = 0 is supplied yet Python's
truthiness test skips the injection, so the metric's bag still lacks
vehicle_mass after the run — refuting "injects whenever supplied". -/
theorem c6_zero_weight_counterexample :
    massEntries (run idKernel [cmNoMass] [0, 1] [0, 0] (some 0)) = [none] ∧
    (none : Option ℚ) ≠ some 0 := by
  constructor
  · have hr : run idKernel [cmNoMass] [0, 1] [0, 0] (some 0) =
        .ok (runMetrics flatSig (some 0) [cmNoMass] [("signal_obj", .sig flatSig)],
          [cmNoMass].map (injectMass (some 0))) := by
      unfold run
      rw [process_flatSig]
    rw [hr]
    have htr : pyTruthy (some (0 : ℚ)) = false := by
      simp [pyTruthy]
    have hinj : injectMass (some 0) cmNoMass = cmNoMass := by
      unfold injectMass
      rw [if_neg]
      intro hc
      rw [htr] at hc
      exact absurd hc.1 (by simp)
    show ([cmNoMass].map (injectMass (some 0))).map
      (fun m => dlookup m.params "vehicle_mass") = [none]
    rw [show [cmNoMass].map (injectMass (some 0)) = [cmNoMass] by simp [hinj]]
    rfl
  · simp

/-- C6 (amended): on every successful run the pipeline's metric state is
the injection map of the registered metrics: a metric whose bag lacks
vehicle_mass receives the supplied vehicle_weight exactly when that
weight is truthy (non-None and nonzero); a bag that already has a
vehicle_mass entry is left entirely unchanged. -/
theorem c6_mass_injection_amended (bf : ℚ → List ℚ → List ℚ) (metrics : List Metric)
    (t a : List ℚ) (w : Option ℚ) (res : List (String × PipeValue)) (ms2 : List Metric)
    (hrun : run bf metrics t a w = .ok (res, ms2)) :
    ms2 = metrics.map (injectMass w) ∧
    (∀ (m : Metric) (v : ℚ), v ≠ 0 → w = some v →
      dlookup m.params "vehicle_mass" = none →
      dlookup (injectMass w m).params "vehicle_mass" = some v) ∧
    (∀ (m : Metric) (u : ℚ), dlookup m.params "vehicle_mass" = some u →
      injectMass w m = m) := by
  refine ⟨run_metrics_state bf metrics t a w res ms2 hrun, ?_, ?_⟩
  · intro m v hv hw hnone
    subst hw
    unfold injectMass
    rw [if_pos ⟨by simp [pyTruthy, hv], hnone⟩]
    show dlookup (dictInsert m.params "vehicle_mass" ((some v).getD 0)) "vehicle_mass"
      = some v
    rw [dlookup_dictInsert, if_pos rfl]
    rfl
  · intro m u hu
    unfold injectMass
    rw [if_neg]
    intro hc
    rw [hc.2] at hu
    cases hu

/-- C6 witness: with vehicle_weight = 7, a bag holding vehicle_mass = 5 is
untouched while an empty bag receives 7. -/
theorem c6_mass_injection_amended_witness :
    injectMass (some 7) cmWithMass = cmWithMass ∧
    dlookup (injectMass (some 7) cmNoMass).params "vehicle_mass" = some 7 := by
  have hr : run idKernel [cmWithMass, cmNoMass] [0, 1] [0, 0] (some 7) =
      .ok (runMetrics flatSig (some 7) [cmWithMass, cmNoMass]
        [("signal_obj", .sig flatSig)],
        [cmWithMass, cmNoMass].map (injectMass (some 7))) := by
    unfold run
    rw [process_flatSig]
  have h := c6_mass_injection_amended idKernel [cmWithMass, cmNoMass] [0, 1] [0, 0]
    (some 7) _ _ hr
  constructor
  · exact h.2.2 cmWithMass 5 (by rw [show cmWithMass.params = [("vehicle_mass", 5)] from rfl,
      dlookup_cons, if_pos rfl])
  · exact h.2.1 cmNoMass 7 (by norm_num) rfl rfl

-- ===== C10: no overwrite, in-place persistence across runs =====

/-- C10: `run` never overwrites an existing vehicle_mass entry (such a
metric is returned completely unchanged by the injection), the pipeline's
metric state after a run is the injected metric list, and any metric
whose bag holds a vehicle_mass entry after one run still holds it — at
the same position and unchanged — after a subsequent run with any other
(or no) vehicle_weight. -/
theorem c10_inplace_mass_persistence (bf : ℚ → List ℚ → List ℚ)
    (t a t2 a2 : List ℚ) (ms : List Metric) (w w2 : Option ℚ)
    (r1 : List (String × PipeValue)) (ms1 : List Metric)
    (r2 : List (String × PipeValue)) (ms2 : List Metric)
    (h1 : run bf ms t a w = .ok (r1, ms1))
    (h2 : run bf ms1 t2 a2 w2 = .ok (r2, ms2)) :
    (∀ (m : Metric) (w3 : Option ℚ) (u : ℚ),
      dlookup m.params "vehicle_mass" = some u → injectMass w3 m = m) ∧
    ms1 = ms.map (injectMass w) ∧
    ms2 = ms1.map (injectMass w2) ∧
    (∀ (i : Nat) (m1 : Metric) (u : ℚ), ms1[i]? = some m1 →
      dlookup m1.params "vehicle_mass" = some u → ms2[i]? = some m1) := by
  have hkeep : ∀ (m : Metric) (w3 : Option ℚ) (u : ℚ),
      dlookup m.params "vehicle_mass" = some u → injectMass w3 m = m := by
    intro m w3 u hu
    unfold injectMass
    rw [if_neg]
    intro hc
    rw [hc.2] at hu
    cases hu
  have hms1 := run_metrics_state bf ms t a w r1 ms1 h1
  have hms2 := run_metrics_state bf ms1 t2 a2 w2 r2 ms2 h2
  refine ⟨hkeep, hms1, hms2, ?_⟩
  intro i m1 u hget hu
  rw [hms2, List.getElem?_map, hget, Option.map_some', hkeep m1 w2 u hu]

/-- C10 witness: an empty bag receives vehicle_mass = 7 in a first run;
a second run with vehicle_weight = 9 leaves the entry at 7. -/
theorem c10_inplace_mass_persistence_witness :
    dlookup (injectMass (some 9) (injectMass (some 7) cmNoMass)).params
      "vehicle_mass" = some 7 := by
  have hr1 : run idKernel [cmNoMass] [0, 1] [0, 0] (some 7) =
      .ok (runMetrics flatSig (some 7) [cmNoMass] [("signal_obj", .sig flatSig)],
        [cmNoMass].map (injectMass (some 7))) := by
    unfold run
    rw [process_flatSig]
  have hr2 : run idKernel ([cmNoMass].map (injectMass (some 7))) [0, 1] [0, 0] (some 9) =
      .ok (runMetrics flatSig (some 9) ([cmNoMass].map (injectMass (some 7)))
        [("signal_obj", .sig flatSig)],
        ([cmNoMass].map (injectMass (some 7))).map (injectMass (some 9))) := by
    unfold run
    rw [process_flatSig]
  have h := c10_inplace_mass_persistence idKernel [0, 1] [0, 0] [0, 1] [0, 0]
    [cmNoMass] (some 7) (some 9) _ _ _ _ hr1 hr2
  have hm1 : dlookup (injectMass (some 7) cmNoMass).params "vehicle_mass" = some 7 := by
    unfold injectMass
    rw [if_pos ⟨by simp [pyTruthy], rfl⟩]
    show dlookup (dictInsert cmNoMass.params "vehicle_mass" ((some (7 : ℚ)).getD 0))
      "vehicle_mass" = some 7
    rw [dlookup_dictInsert, if_pos rfl]
    rfl
  rw [h.1 (injectMass (some 7) cmNoMass) (some 9) 7 hm1]
  exact hm1

end Nhtsa
